import Mathlib

/-!
Verification of the word-game engine in `bot.py`.

Words are modelled as lists of characters (Python strings iterate over their
characters), machine integers as `Nat`/`Int`, Python dictionaries mapping
words to claim attributions as association lists with unique keys, and the
fallible team-tally loop (which can raise `IndexError`) as an `Except`
computation.  Wall-clock instants are epoch seconds; the sub-second part of
`datetime.now()` is irrelevant to every statement below because the code
zeroes `microsecond` and `second` before using the value.
-/

/-- A word: the sequence of characters of a Python string. -/
abbrev Word := List Char

/-- The `GameState` enum (`IntEnum` with values 0, 1, 2). -/
inductive GameState where
  | CONTINUE : GameState
  | FINISHED : GameState
  | RESTARTING : GameState
deriving DecidableEq, Repr

/-- Integer value of a `GameState` (its `IntEnum` value). -/
def GameState.toInt : GameState → Int
  | .CONTINUE => 0
  | .FINISHED => 1
  | .RESTARTING => 2

/-- Recover a `GameState` from its integer value; other integers are rejected. -/
def GameState.ofInt : Int → Option GameState
  | 0 => some .CONTINUE
  | 1 => some .FINISHED
  | 2 => some .RESTARTING
  | _ => none

/-- The three cell classifications produced by the Wordle evaluator
(`COLOR_ABSENT`, `COLOR_PRESENT`, `COLOR_CORRECT` in the source). -/
inductive Color where
  | Absent : Color
  | Present : Color
  | Correct : Color
deriving DecidableEq, Repr

/-- `tally = {letter: solution.count(letter) for letter in solution}`:
the per-letter multiplicity of the solution.  Letters outside the solution
map to 0, and the separate `letter in tally` test of the source is modelled
by an explicit membership test on the solution. -/
def initTally (solution : Word) : Char → Int :=
  fun c => (solution.count c : Int)

/-- `tally[letter] -= 1`. -/
def decTally (t : Char → Int) (c : Char) : Char → Int :=
  fun d => if d = c then t d - 1 else t d

/-- First pass of `WordleGame.guess`: walk the (guess letter, solution letter)
pairs, mark exact matches `Correct` and decrement the tally; everything else
starts out `Absent` (`colors = [COLOR_ABSENT] * len(self.solution)`). -/
def pass1 : List (Char × Char) → (Char → Int) → List Color × (Char → Int)
  | [], t => ([], t)
  | (g, s) :: rest, t =>
    if g = s then
      let r := pass1 rest (decTally t g)
      (Color.Correct :: r.1, r.2)
    else
      let r := pass1 rest t
      (Color.Absent :: r.1, r.2)

/-- Second pass of `WordleGame.guess`: over the same pairs, overwrite a cell
with `Present` when the guessed letter is a key of the tally (i.e. occurs in
the solution), its tally is still positive and the cell is not an exact
match; decrement the tally when doing so. -/
def pass2 (sol : Word) : List (Char × Char) → List Color → (Char → Int) → List Color
  | (g, s) :: rest, c :: cs, t =>
    if g ∈ sol ∧ t g > 0 ∧ g ≠ s then
      Color.Present :: pass2 sol rest cs (decTally t g)
    else
      c :: pass2 sol rest cs t
  | _, _, _ => []

/-- The full two-pass classification of `WordleGame.guess` for a guess of the
same length as the solution. -/
def wordleColors (solution guess : Word) : List Color :=
  let pairs := guess.zip solution
  let r := pass1 pairs (initTally solution)
  pass2 solution pairs r.1 r.2

/-- Cosmetic flair tier of a winning Wordle guess: `😲` when
`guesses <= len * 0.75`, `🍬` when `guesses <= len * 2.0`, nothing
otherwise.  The float comparisons are exact, so they are modelled by the
equivalent integer comparisons. -/
inductive Flair where
  | wow : Flair
  | candy : Flair
  | plain : Flair
deriving DecidableEq, Repr

/-- Observable outcome of `WordleGame.guess`: the `🔢` wrong-length signal,
the `❓` unknown-word signal, a non-winning classified guess, or the winning
guess with its flair tier. -/
inductive WordleSignal where
  | wrongLength : WordleSignal
  | unknownWord : WordleSignal
  | progress : List Color → WordleSignal
  | win : List Color → Flair → WordleSignal
deriving DecidableEq, Repr

/-- The persistent fields of a `WordleGame`. -/
structure WordleGame where
  state : GameState
  guesses : Nat
  solution : Word
deriving DecidableEq, Repr

/-- `WordleGame.guess`.  The word list `allWords` (the module-level corpus)
is passed explicitly; rendering of the image is out of scope.  Returns the
updated game and the observable signal. -/
def WordleGame.guess (allWords : List Word) (g : WordleGame) (w : Word) :
    WordleGame × WordleSignal :=
  if w.length ≠ g.solution.length then (g, .wrongLength)
  else if w ∉ allWords then (g, .unknownWord)
  else
    let colors := wordleColors g.solution w
    let g1 : WordleGame := { g with guesses := g.guesses + 1 }
    if w ≠ g.solution then (g1, .progress colors)
    else
      let flair :=
        if 4 * g1.guesses ≤ 3 * g.solution.length then Flair.wow
        else if g1.guesses ≤ 2 * g.solution.length then Flair.candy
        else Flair.plain
      ({ g1 with state := GameState.FINISHED }, .win colors flair)

/-- Number of positions whose cell has color `col` and whose guessed letter
is `c`. -/
def colorLetterCount (cs : List Color) (guess : Word) (col : Color) (c : Char) : Nat :=
  (cs.zip guess).countP fun q => decide (q.1 = col ∧ q.2 = c)

/-- Positions counted against the letter pairs instead of the raw guess;
convenient for induction. -/
def pairColorCount (cs : List Color) (pairs : List (Char × Char)) (col : Color) (c : Char) : Nat :=
  (cs.zip pairs).countP fun q => decide (q.1 = col ∧ q.2.1 = c)

lemma pass1_nil_eq (t : Char → Int) : pass1 [] t = ([], t) := rfl

lemma pass1_cons_eq (g s : Char) (rest : List (Char × Char)) (t : Char → Int) :
    pass1 ((g, s) :: rest) t =
      if g = s then
        (Color.Correct :: (pass1 rest (decTally t g)).1, (pass1 rest (decTally t g)).2)
      else
        (Color.Absent :: (pass1 rest t).1, (pass1 rest t).2) := by
  by_cases h : g = s <;> simp [pass1, h]

lemma pass2_cons_eq (sol : Word) (g s : Char) (rest : List (Char × Char))
    (c : Color) (cs : List Color) (t : Char → Int) :
    pass2 sol ((g, s) :: rest) (c :: cs) t =
      if g ∈ sol ∧ t g > 0 ∧ g ≠ s then
        Color.Present :: pass2 sol rest cs (decTally t g)
      else
        c :: pass2 sol rest cs t := by
  by_cases h : g ∈ sol ∧ t g > 0 ∧ g ≠ s <;> simp [pass2, h]

lemma pass1_forall (pairs : List (Char × Char)) (t : Char → Int) :
    List.Forall₂ (fun p c => c = if p.1 = p.2 then Color.Correct else Color.Absent)
      pairs (pass1 pairs t).1 := by
  induction pairs generalizing t with
  | nil => exact List.Forall₂.nil
  | cons p rest ih =>
    obtain ⟨g, s⟩ := p
    by_cases h : g = s
    · rw [pass1_cons_eq, if_pos h]
      exact List.Forall₂.cons (by simp [h]) (ih (decTally t g))
    · rw [pass1_cons_eq, if_neg h]
      exact List.Forall₂.cons (by simp [h]) (ih t)

lemma pass1_tally (pairs : List (Char × Char)) (t : Char → Int) (c : Char) :
    (pass1 pairs t).2 c =
      t c - (pairs.countP fun p => decide (p.1 = p.2 ∧ p.1 = c) : Int) := by
  induction pairs generalizing t with
  | nil => simp [pass1_nil_eq]
  | cons p rest ih =>
    obtain ⟨g, s⟩ := p
    rw [List.countP_cons]
    by_cases h : g = s
    · rw [pass1_cons_eq, if_pos h]
      simp only [ih (decTally t g), decTally]
      by_cases hc : c = g
      · subst hc
        simp [h]
        omega
      · have : ¬(g = s ∧ g = c) := fun hh => hc (hh.2.symm)
        simp [hc, this]
    · rw [pass1_cons_eq, if_neg h]
      have : ¬(g = s ∧ g = c) := fun hh => h hh.1
      simp [ih t, this]

lemma pass2_correct_iff (sol : Word) (pairs : List (Char × Char)) (cs : List Color)
    (t : Char → Int)
    (h : List.Forall₂ (fun p c => c = Color.Correct ↔ p.1 = p.2) pairs cs) :
    List.Forall₂ (fun p c => c = Color.Correct ↔ p.1 = p.2) pairs (pass2 sol pairs cs t) := by
  induction h generalizing t with
  | nil => exact List.Forall₂.nil
  | @cons p c rest cstail hpc htail ih =>
    obtain ⟨g, s⟩ := p
    by_cases hcond : g ∈ sol ∧ t g > 0 ∧ g ≠ s
    · rw [pass2_cons_eq, if_pos hcond]
      exact List.Forall₂.cons (iff_of_false (by simp) hcond.2.2) (ih (decTally t g))
    · rw [pass2_cons_eq, if_neg hcond]
      exact List.Forall₂.cons hpc (ih t)

lemma pass2_present_bound (sol : Word) (pairs : List (Char × Char)) (cs : List Color)
    (t : Char → Int) (c : Char) (hcs : ∀ x ∈ cs, x ≠ Color.Present) :
    (pairColorCount (pass2 sol pairs cs t) pairs Color.Present c : Int) ≤ max (t c) 0 := by
  induction pairs generalizing cs t with
  | nil =>
    have : pass2 sol [] cs t = [] := by cases cs <;> rfl
    simp only [this, pairColorCount, List.zip_nil_left, List.countP_nil, Nat.cast_zero]
    exact le_max_right _ _
  | cons p rest ih =>
    obtain ⟨g, s⟩ := p
    cases cs with
    | nil =>
      have : pass2 sol ((g, s) :: rest) [] t = [] := rfl
      simp only [this, pairColorCount, List.zip_nil_left, List.countP_nil, Nat.cast_zero]
      exact le_max_right _ _
    | cons c0 cstail =>
      have hc0 : c0 ≠ Color.Present := hcs c0 (List.mem_cons_self c0 cstail)
      have hcstail : ∀ x ∈ cstail, x ≠ Color.Present :=
        fun x hx => hcs x (List.mem_cons_of_mem _ hx)
      by_cases hcond : g ∈ sol ∧ t g > 0 ∧ g ≠ s
      · rw [pass2_cons_eq, if_pos hcond]
        by_cases hgc : g = c
        · subst hgc
          have hrest := ih cstail (decTally t g) hcstail
          have hdec : decTally t g g = t g - 1 := by simp [decTally]
          rw [hdec] at hrest
          have hcount : pairColorCount (Color.Present :: pass2 sol rest cstail (decTally t g))
              ((g, s) :: rest) Color.Present g
              = pairColorCount (pass2 sol rest cstail (decTally t g)) rest Color.Present g + 1 := by
            simp [pairColorCount, List.countP_cons]
          rw [hcount]
          have ht : t g > 0 := hcond.2.1
          push_cast
          omega
        · have hrest := ih cstail (decTally t g) hcstail
          have hcg : ¬c = g := fun hh => hgc hh.symm
          have hdec : decTally t g c = t c := by simp [decTally, hcg]
          rw [hdec] at hrest
          have hcount : pairColorCount
              (Color.Present :: pass2 sol rest cstail (decTally t g))
              ((g, s) :: rest) Color.Present c
              = pairColorCount (pass2 sol rest cstail (decTally t g)) rest Color.Present c := by
            simp [pairColorCount, List.countP_cons, hgc]
          rw [hcount]
          exact hrest
      · rw [pass2_cons_eq, if_neg hcond]
        have hcount : pairColorCount (c0 :: pass2 sol rest cstail t)
            ((g, s) :: rest) Color.Present c
            = pairColorCount (pass2 sol rest cstail t) rest Color.Present c := by
          simp [pairColorCount, List.countP_cons, hc0]
        rw [hcount]
        exact ih cstail t hcstail

lemma forall2_correct_count (pairs : List (Char × Char)) (cs : List Color) (c : Char)
    (h : List.Forall₂ (fun p x => x = Color.Correct ↔ p.1 = p.2) pairs cs) :
    pairColorCount cs pairs Color.Correct c =
      pairs.countP fun p => decide (p.1 = p.2 ∧ p.1 = c) := by
  induction h with
  | nil => simp [pairColorCount]
  | @cons p x rest cstail hpx htail ih =>
    obtain ⟨g, s⟩ := p
    have hx : (decide (x = Color.Correct ∧ g = c)) = (decide (g = s ∧ g = c)) := by
      by_cases h1 : x = Color.Correct
      · have h2 : g = s := hpx.mp h1
        simp [h1, h2]
      · have h2 : ¬g = s := fun hh => h1 (hpx.mpr hh)
        simp [h1, h2]
    simp only [pairColorCount, List.zip_cons_cons, List.countP_cons] at ih ⊢
    rw [ih, hx]

lemma pass1_correct_iff (pairs : List (Char × Char)) (t : Char → Int) :
    List.Forall₂ (fun p c => c = Color.Correct ↔ p.1 = p.2) pairs (pass1 pairs t).1 := by
  have h := pass1_forall pairs t
  refine h.imp ?_
  intro p x hx
  by_cases hp : p.1 = p.2 <;> simp [hp] at hx <;> simp [hx, hp]

lemma pass1_no_present (pairs : List (Char × Char)) (t : Char → Int) :
    ∀ x ∈ (pass1 pairs t).1, x ≠ Color.Present := by
  induction pairs generalizing t with
  | nil => intro x hx; simp [pass1_nil_eq] at hx
  | cons p rest ih =>
    obtain ⟨g, s⟩ := p
    intro x hx
    by_cases h : g = s
    · rw [pass1_cons_eq, if_pos h] at hx
      rcases List.mem_cons.mp hx with h1 | h1
      · subst h1; simp
      · exact ih (decTally t g) x h1
    · rw [pass1_cons_eq, if_neg h] at hx
      rcases List.mem_cons.mp hx with h1 | h1
      · subst h1; simp
      · exact ih t x h1

lemma beq_decide_char (x c : Char) : (x == c) = decide (x = c) := by
  by_cases h : x = c <;> simp [h]

lemma colorLetterCount_eq_pair (cs : List Color) (pairs : List (Char × Char))
    (col : Color) (c : Char) :
    colorLetterCount cs (pairs.map Prod.fst) col c = pairColorCount cs pairs col c := by
  unfold colorLetterCount pairColorCount
  rw [List.zip_map_right, List.countP_map]
  congr 1

lemma countP_snd_eq_count (pairs : List (Char × Char)) (c : Char) :
    (pairs.countP fun p => decide (p.2 = c)) = (pairs.map Prod.snd).count c := by
  rw [List.count_eq_countP, List.countP_map]
  congr 1

lemma wordleColors_forall (S G : Word) :
    List.Forall₂ (fun p c => c = Color.Correct ↔ p.1 = p.2)
      (G.zip S) (wordleColors S G) :=
  pass2_correct_iff S (G.zip S) _ _ (pass1_correct_iff (G.zip S) _)

lemma wordleColors_length (S G : Word) (hlen : G.length = S.length) :
    (wordleColors S G).length = S.length := by
  have h := (wordleColors_forall S G).length_eq
  rw [← h, List.length_zip, hlen, Nat.min_self]

/-- Claim C1: for every solution `S` and guess `G` with `len(G) = len(S)` and
`G` in the corpus, `WordleGame.guess` classifies the guess (rather than
rejecting it), the classification has length `len(S)`, a position is
`Correct` exactly when the two letters agree there, and for every letter the
number of positions classified `Correct` or `Present` with that guessed
letter never exceeds the letter's multiplicity in `S`. -/
theorem wordle_guess_classification (allWords : List Word) (S G : Word)
    (hlen : G.length = S.length) (hmem : G ∈ allWords) :
    (wordleColors S G).length = S.length ∧
    (∀ i, i < S.length →
      ((wordleColors S G)[i]? = some Color.Correct ↔ G[i]? = S[i]?)) ∧
    (∀ c : Char,
      colorLetterCount (wordleColors S G) G Color.Correct c
        + colorLetterCount (wordleColors S G) G Color.Present c ≤ S.count c) ∧
    (∀ st n, G ≠ S →
      (WordleGame.guess allWords ⟨st, n, S⟩ G).2 =
        WordleSignal.progress (wordleColors S G)) ∧
    (∀ st n, G = S →
      ∃ f, (WordleGame.guess allWords ⟨st, n, S⟩ G).2 =
        WordleSignal.win (wordleColors S G) f) := by
  have hplen : (G.zip S).length = S.length := by
    rw [List.length_zip, hlen, Nat.min_self]
  have hlen2 := wordleColors_length S G hlen
  have hforall := wordleColors_forall S G
  refine ⟨hlen2, ?_, ?_, ?_, ?_⟩
  · intro i hi
    obtain ⟨hleq, hget⟩ := List.forall₂_iff_get.mp hforall
    have h1 : i < (G.zip S).length := by omega
    have h2 : i < (wordleColors S G).length := by omega
    have hG : i < G.length := by omega
    have hS : i < S.length := hi
    have hR := hget i h1 h2
    simp only [List.get_eq_getElem, List.getElem_zip] at hR
    rw [List.getElem?_eq_getElem h2, List.getElem?_eq_getElem hG,
      List.getElem?_eq_getElem hS]
    simpa using hR
  · intro c
    have hfst : (G.zip S).map Prod.fst = G := List.map_fst_zip _ _ (le_of_eq hlen)
    have hsnd : (G.zip S).map Prod.snd = S := List.map_snd_zip _ _ (le_of_eq hlen.symm)
    have hclc1 := colorLetterCount_eq_pair (wordleColors S G) (G.zip S) Color.Correct c
    have hclc2 := colorLetterCount_eq_pair (wordleColors S G) (G.zip S) Color.Present c
    rw [hfst] at hclc1 hclc2
    have hcorr : colorLetterCount (wordleColors S G) G Color.Correct c
        = (G.zip S).countP fun p => decide (p.1 = p.2 ∧ p.1 = c) := by
      rw [hclc1]
      exact forall2_correct_count _ _ _ hforall
    have hprescnt : colorLetterCount (wordleColors S G) G Color.Present c
        = pairColorCount (wordleColors S G) (G.zip S) Color.Present c := hclc2
    have hpres := pass2_present_bound S (G.zip S)
      (pass1 (G.zip S) (initTally S)).1 (pass1 (G.zip S) (initTally S)).2 c
      (pass1_no_present (G.zip S) (initTally S))
    have hwc : pairColorCount (wordleColors S G) (G.zip S) Color.Present c
        = pairColorCount
            (pass2 S (G.zip S) (pass1 (G.zip S) (initTally S)).1
              (pass1 (G.zip S) (initTally S)).2)
            (G.zip S) Color.Present c := rfl
    have htally := pass1_tally (G.zip S) (initTally S) c
    have hk_le : ((G.zip S).countP fun p => decide (p.1 = p.2 ∧ p.1 = c)) ≤ S.count c := by
      have h1 : ((G.zip S).countP fun p => decide (p.1 = p.2 ∧ p.1 = c))
          ≤ ((G.zip S).countP fun p => decide (p.2 = c)) := by
        refine List.countP_mono_left ?_
        intro a ha h
        simp only [decide_eq_true_eq] at h ⊢
        rw [← h.1]
        exact h.2
      have h2 : ((G.zip S).countP fun p => decide (p.2 = c)) = S.count c := by
        rw [countP_snd_eq_count, hsnd]
      omega
    have hcount : (initTally S) c = (S.count c : Int) := rfl
    rw [hcorr, hprescnt, hwc]
    rw [htally, hcount] at hpres
    have hfin : (pairColorCount
        (pass2 S (G.zip S) (pass1 (G.zip S) (initTally S)).1
          (pass1 (G.zip S) (initTally S)).2) (G.zip S) Color.Present c : Int)
        ≤ (S.count c : Int) - ((G.zip S).countP fun p => decide (p.1 = p.2 ∧ p.1 = c)) := by
      have : max ((S.count c : Int) - ((G.zip S).countP fun p => decide (p.1 = p.2 ∧ p.1 = c))) 0
          = (S.count c : Int) - ((G.zip S).countP fun p => decide (p.1 = p.2 ∧ p.1 = c)) := by
        have : ((G.zip S).countP fun p => decide (p.1 = p.2 ∧ p.1 = c) : Int) ≤ (S.count c : Int) := by
          exact_mod_cast hk_le
        omega
      rw [this] at hpres
      exact hpres
    omega
  · intro st n hne
    simp [WordleGame.guess, hlen, hmem, hne]
  · intro st n heq
    subst heq
    simp only [WordleGame.guess, hlen]
    simp [hmem]

/-- Solution word of the worked Wordle scenario. -/
def wordleSolExample : Word := ['с', 'л', 'о', 'в', 'о']

/-- Guess word of the worked Wordle scenario. -/
def wordleGuessExample : Word := ['с', 'л', 'а', 'в', 'а']

theorem wordle_guess_classification_witness :
    wordleGuessExample.length = wordleSolExample.length ∧
    wordleGuessExample ∈ [wordleGuessExample] ∧
    ((wordleColors wordleSolExample wordleGuessExample).length = wordleSolExample.length ∧
     (∀ i, i < wordleSolExample.length →
       ((wordleColors wordleSolExample wordleGuessExample)[i]? = some Color.Correct ↔
         wordleGuessExample[i]? = wordleSolExample[i]?)) ∧
     (∀ c : Char,
       colorLetterCount (wordleColors wordleSolExample wordleGuessExample)
           wordleGuessExample Color.Correct c
         + colorLetterCount (wordleColors wordleSolExample wordleGuessExample)
           wordleGuessExample Color.Present c ≤ wordleSolExample.count c) ∧
     (∀ st n, wordleGuessExample ≠ wordleSolExample →
       (WordleGame.guess [wordleGuessExample] ⟨st, n, wordleSolExample⟩ wordleGuessExample).2 =
         WordleSignal.progress (wordleColors wordleSolExample wordleGuessExample)) ∧
     (∀ st n, wordleGuessExample = wordleSolExample →
       ∃ f, (WordleGame.guess [wordleGuessExample] ⟨st, n, wordleSolExample⟩ wordleGuessExample).2 =
         WordleSignal.win (wordleColors wordleSolExample wordleGuessExample) f)) :=
  ⟨by decide, by decide,
    wordle_guess_classification [wordleGuessExample] wordleSolExample wordleGuessExample
      (by decide) (by decide)⟩

/-- `MIN_LENGTH` from the source. -/
def MIN_LENGTH : Nat := 3

/-- `MAX_LENGTH` from the source. -/
def MAX_LENGTH : Nat := 7

/-- `datetime.now().replace(microsecond=0, second=0, minute=0)` expressed on
epoch seconds (the process runs with an offset that is a whole number of
hours, so zeroing minutes and seconds truncates the timestamp down to the
enclosing hour boundary). -/
def hourFloor (now : Int) : Int := now - now % 3600

/-- The Spelling-Bee deadline computed at creation:
`int((now.replace(...) + timedelta(hours=24)).timestamp())`. -/
def spellingDeadline (now : Int) : Int := hourFloor now + 24 * 3600

/-- Deadline as claimed by the specification: the next top-of-hour after the
creation time, plus 24 hours.  Modelled from the spec sentence
"`deadline` (absolute timestamp, set at creation to the next top-of-hour
plus 24 hours)"; kept separate so it can be compared with the code's
`spellingDeadline`. -/
def specNextTopOfHourDeadline (now : Int) : Int :=
  (if now % 3600 = 0 then now else now - now % 3600 + 3600) + 24 * 3600

/-- The candidate test applied to each corpus word in `SpellingGame.__init__`:
length window `[MIN_LENGTH, MAX_LENGTH]`, every letter of the word occurs in
the root word, and no letter of the root is outnumbered by its occurrences
in the candidate. -/
def spellingCandidateOk (root w : Word) : Bool :=
  decide (MIN_LENGTH ≤ w.length) && decide (w.length ≤ MAX_LENGTH) &&
  (w.all fun c => decide (c ∈ root)) &&
  !(root.any fun c => decide (root.count c < w.count c))

/-- The persistent fields of a `SpellingGame`.  The two Python dicts mapping
words to an optional claimant id are association lists (keys are unique in
every state the program constructs). -/
structure SpellingGame where
  state : GameState
  deadline : Int
  root_word : Word
  words : List (Word × Option Nat)
  other_words : List (Word × Option Nat)
deriving DecidableEq, Repr

/-- `SpellingGame.__init__` for a fresh game: the corpus, the common-word
subset, the creation time and the chosen 10-letter root word are passed
explicitly in place of the module-level globals and `random.choice`. -/
def spellingInit (allWords commonWords : List Word) (now : Int) (root : Word) :
    SpellingGame :=
  let solution_words := allWords.filter fun w =>
    spellingCandidateOk root w && decide (w ∈ commonWords)
  let acceptable_words := allWords.filter fun w =>
    spellingCandidateOk root w && !decide (w ∈ commonWords)
  { state := GameState.CONTINUE
    deadline := spellingDeadline now
    root_word := root
    words := solution_words.map fun w => (w, none)
    other_words := acceptable_words.map fun w => (w, none) }

/-- Python `guess in d` / `d[guess]` on a word→attribution dict. -/
def lookupWord (m : List (Word × Option Nat)) (w : Word) : Option (Option Nat) :=
  match m.find? fun p => decide (p.1 = w) with
  | some p => some p.2
  | none => none

/-- Python `d[guess] = author.id`. -/
def setWord (m : List (Word × Option Nat)) (w : Word) (uid : Nat) :
    List (Word × Option Nat) :=
  m.map fun p => if p.1 = w then (p.1, some uid) else p

/-- Python truthiness of an attribution value (`None` and `0` are falsy). -/
def truthy : Option Nat → Bool
  | none => false
  | some n => decide (n ≠ 0)

/-- `all(self.words.values())`. -/
def allClaimed (m : List (Word × Option Nat)) : Bool :=
  m.all fun p => truthy p.2

/-- The five reaction emoji `SpellingGame.guess` can return:
`🔁` (already claimed), `✅` (new solution word), `📚` (new bonus word),
`❎` (valid word that does not fit this root), `❓` (unknown word). -/
inductive SpellSignal where
  | again : SpellSignal
  | claimed : SpellSignal
  | bonus : SpellSignal
  | known : SpellSignal
  | unknown : SpellSignal
deriving DecidableEq, Repr

/-- `SpellingGame.guess`: returns the updated game and the reaction emoji. -/
def SpellingGame.guess (allWords : List Word) (g : SpellingGame) (w : Word)
    (author : Nat) : SpellingGame × SpellSignal :=
  match lookupWord g.words w with
  | some (some _) => (g, .again)
  | some none =>
    let words2 := setWord g.words w author
    let st := if allClaimed words2 then GameState.FINISHED else g.state
    ({ g with words := words2, state := st }, .claimed)
  | none =>
    match lookupWord g.other_words w with
    | some (some _) => (g, .again)
    | some none => ({ g with other_words := setWord g.other_words w author }, .bonus)
    | none => if w ∈ allWords then (g, .known) else (g, .unknown)

/-- A sequence of `guess` calls, folded over the game state. -/
def playSeq (allWords : List Word) (g : SpellingGame) (ms : List (Word × Nat)) :
    SpellingGame :=
  ms.foldl (fun acc m => (SpellingGame.guess allWords acc m.1 m.2).1) g

lemma spellingCandidateOk_iff (root w : Word) :
    spellingCandidateOk root w = true ↔
      (MIN_LENGTH ≤ w.length ∧ w.length ≤ MAX_LENGTH ∧
       (∀ c ∈ w, c ∈ root) ∧ ∀ c : Char, w.count c ≤ root.count c) := by
  unfold spellingCandidateOk
  simp only [Bool.and_eq_true, decide_eq_true_eq, List.all_eq_true, Bool.not_eq_true',
    List.any_eq_false, decide_eq_false_iff_not, not_lt]
  constructor
  · rintro ⟨⟨⟨h1, h2⟩, h3⟩, h4⟩
    refine ⟨h1, h2, fun c hc => h3 c hc, ?_⟩
    intro c
    by_cases hc : c ∈ root
    · exact h4 c hc
    · have hw : c ∉ w := fun hw => hc (h3 c hw)
      simp [List.count_eq_zero.mpr hw]
  · rintro ⟨h1, h2, h3, h4⟩
    exact ⟨⟨⟨h1, h2⟩, h3⟩, fun c _ => h4 c⟩

lemma map_fst_attr (l : List Word) :
    (l.map fun w => (w, (none : Option Nat))).map Prod.fst = l := by
  induction l with
  | nil => rfl
  | cons a l ih => simp only [List.map_cons, ih]

/-- Claim C2: in a freshly created `SpellingGame` with root word `root`, a
corpus word `w` appears in the puzzle's word maps exactly when its length is
in `[3,7]`, every letter of `w` occurs in `root`, and no letter occurs more
often in `w` than in `root`; a qualifying word lands in the solution map
exactly when it is a common word and in the bonus map otherwise, and every
entry starts unclaimed. -/
theorem spelling_init_words (allWords commonWords : List Word) (now : Int)
    (root w : Word) (hmem : w ∈ allWords) :
    ((w ∈ (spellingInit allWords commonWords now root).words.map Prod.fst ∨
      w ∈ (spellingInit allWords commonWords now root).other_words.map Prod.fst) ↔
      (MIN_LENGTH ≤ w.length ∧ w.length ≤ MAX_LENGTH ∧
       (∀ c ∈ w, c ∈ root) ∧ ∀ c : Char, w.count c ≤ root.count c)) ∧
    (w ∈ (spellingInit allWords commonWords now root).words.map Prod.fst ↔
      ((MIN_LENGTH ≤ w.length ∧ w.length ≤ MAX_LENGTH ∧
        (∀ c ∈ w, c ∈ root) ∧ ∀ c : Char, w.count c ≤ root.count c) ∧
       w ∈ commonWords)) ∧
    (w ∈ (spellingInit allWords commonWords now root).other_words.map Prod.fst ↔
      ((MIN_LENGTH ≤ w.length ∧ w.length ≤ MAX_LENGTH ∧
        (∀ c ∈ w, c ∈ root) ∧ ∀ c : Char, w.count c ≤ root.count c) ∧
       w ∉ commonWords)) ∧
    (∀ p ∈ (spellingInit allWords commonWords now root).words, p.2 = none) ∧
    (∀ p ∈ (spellingInit allWords commonWords now root).other_words, p.2 = none) := by
  have hsol : (spellingInit allWords commonWords now root).words.map Prod.fst
      = allWords.filter fun v => spellingCandidateOk root v && decide (v ∈ commonWords) := by
    show ((allWords.filter fun v => spellingCandidateOk root v && decide (v ∈ commonWords)).map
      fun w => (w, (none : Option Nat))).map Prod.fst = _
    exact map_fst_attr _
  have hoth : (spellingInit allWords commonWords now root).other_words.map Prod.fst
      = allWords.filter fun v => spellingCandidateOk root v && !decide (v ∈ commonWords) := by
    show ((allWords.filter fun v => spellingCandidateOk root v && !decide (v ∈ commonWords)).map
      fun w => (w, (none : Option Nat))).map Prod.fst = _
    exact map_fst_attr _
  have hsmem : w ∈ (spellingInit allWords commonWords now root).words.map Prod.fst ↔
      ((MIN_LENGTH ≤ w.length ∧ w.length ≤ MAX_LENGTH ∧
        (∀ c ∈ w, c ∈ root) ∧ ∀ c : Char, w.count c ≤ root.count c) ∧ w ∈ commonWords) := by
    rw [hsol, List.mem_filter]
    simp only [Bool.and_eq_true, decide_eq_true_eq, spellingCandidateOk_iff]
    tauto
  have homem : w ∈ (spellingInit allWords commonWords now root).other_words.map Prod.fst ↔
      ((MIN_LENGTH ≤ w.length ∧ w.length ≤ MAX_LENGTH ∧
        (∀ c ∈ w, c ∈ root) ∧ ∀ c : Char, w.count c ≤ root.count c) ∧ w ∉ commonWords) := by
    rw [hoth, List.mem_filter]
    simp only [Bool.and_eq_true, decide_eq_true_eq, spellingCandidateOk_iff,
      Bool.not_eq_true', decide_eq_false_iff_not]
    tauto
  refine ⟨?_, hsmem, homem, ?_, ?_⟩
  · rw [hsmem, homem]
    tauto
  · intro p hp
    simp only [spellingInit, List.mem_map] at hp
    obtain ⟨v, -, hv⟩ := hp
    rw [← hv]
  · intro p hp
    simp only [spellingInit, List.mem_map] at hp
    obtain ⟨v, -, hv⟩ := hp
    rw [← hv]

/-- Example root word for the Spelling-Bee witnesses. -/
def sbRootExample : Word := ['д', 'о', 'м', 'а', 'х', 'л', 'е', 'б', 'ы', 'й']

/-- Example candidate word for the Spelling-Bee witnesses. -/
def sbWordExample : Word := ['д', 'о', 'м']

theorem spelling_init_words_witness :
    sbWordExample ∈ [sbWordExample] ∧
    (((sbWordExample ∈ (spellingInit [sbWordExample] [sbWordExample] 0 sbRootExample).words.map Prod.fst ∨
       sbWordExample ∈ (spellingInit [sbWordExample] [sbWordExample] 0 sbRootExample).other_words.map Prod.fst) ↔
       (MIN_LENGTH ≤ sbWordExample.length ∧ sbWordExample.length ≤ MAX_LENGTH ∧
        (∀ c ∈ sbWordExample, c ∈ sbRootExample) ∧
        ∀ c : Char, sbWordExample.count c ≤ sbRootExample.count c)) ∧
     (sbWordExample ∈ (spellingInit [sbWordExample] [sbWordExample] 0 sbRootExample).words.map Prod.fst ↔
       ((MIN_LENGTH ≤ sbWordExample.length ∧ sbWordExample.length ≤ MAX_LENGTH ∧
         (∀ c ∈ sbWordExample, c ∈ sbRootExample) ∧
         ∀ c : Char, sbWordExample.count c ≤ sbRootExample.count c) ∧
        sbWordExample ∈ [sbWordExample])) ∧
     (sbWordExample ∈ (spellingInit [sbWordExample] [sbWordExample] 0 sbRootExample).other_words.map Prod.fst ↔
       ((MIN_LENGTH ≤ sbWordExample.length ∧ sbWordExample.length ≤ MAX_LENGTH ∧
         (∀ c ∈ sbWordExample, c ∈ sbRootExample) ∧
         ∀ c : Char, sbWordExample.count c ≤ sbRootExample.count c) ∧
        sbWordExample ∉ [sbWordExample])) ∧
     (∀ p ∈ (spellingInit [sbWordExample] [sbWordExample] 0 sbRootExample).words, p.2 = none) ∧
     (∀ p ∈ (spellingInit [sbWordExample] [sbWordExample] 0 sbRootExample).other_words, p.2 = none)) :=
  ⟨by decide,
    spelling_init_words [sbWordExample] [sbWordExample] 0 sbRootExample sbWordExample (by decide)⟩

/-- Attribution values that actually occur in the program: real and synthetic
Discord ids are nonzero, so an attributed slot is always truthy. -/
def goodVals (m : List (Word × Option Nat)) : Prop :=
  ∀ p ∈ m, p.2 ≠ some 0

/-- The state/attribution invariant of a Spelling-Bee session: the session is
`FINISHED` exactly when every solution word is (truthily) claimed. -/
def SpellingInv (g : SpellingGame) : Prop :=
  g.state = GameState.FINISHED ↔ allClaimed g.words = true

lemma setWord_goodVals (m : List (Word × Option Nat)) (w : Word) (a : Nat)
    (ha : a ≠ 0) (h : goodVals m) : goodVals (setWord m w a) := by
  intro p hp
  simp only [setWord, List.mem_map] at hp
  obtain ⟨q, hq, hqp⟩ := hp
  by_cases hw : q.1 = w
  · rw [← hqp]
    simp [hw, ha]
  · rw [← hqp]
    simp only [hw, if_false]
    exact h q hq

lemma setWord_allClaimed (m : List (Word × Option Nat)) (w : Word) (a : Nat)
    (ha : a ≠ 0) (h : allClaimed m = true) : allClaimed (setWord m w a) = true := by
  rw [allClaimed, List.all_eq_true] at h ⊢
  intro p hp
  simp only [setWord, List.mem_map] at hp
  obtain ⟨q, hq, hqp⟩ := hp
  by_cases hw : q.1 = w
  · rw [← hqp]
    simp [hw, truthy, ha]
  · rw [← hqp]
    simp only [hw, if_false]
    exact h q hq

lemma guess_step_inv (allWords : List Word) (g : SpellingGame) (w : Word) (a : Nat)
    (ha : a ≠ 0) (hg : goodVals g.words) (hinv : SpellingInv g) :
    SpellingInv (SpellingGame.guess allWords g w a).1 ∧
      goodVals (SpellingGame.guess allWords g w a).1.words := by
  unfold SpellingGame.guess
  cases h1 : lookupWord g.words w with
  | some v =>
    cases v with
    | some u => exact ⟨hinv, hg⟩
    | none =>
      simp only []
      constructor
      · by_cases hall : allClaimed (setWord g.words w a) = true
        · simp [SpellingInv, hall]
        · have hst : g.state ≠ GameState.FINISHED := by
            intro hfin
            exact hall (setWord_allClaimed _ _ _ ha (hinv.mp hfin))
          simp only [SpellingInv, hall, if_neg]
          simp only [Bool.not_eq_true] at hall
          simp [hall, hst]
      · exact setWord_goodVals _ _ _ ha hg
  | none =>
    cases h2 : lookupWord g.other_words w with
    | some v =>
      cases v with
      | some u => exact ⟨hinv, hg⟩
      | none => exact ⟨hinv, hg⟩
    | none =>
      by_cases hmem : w ∈ allWords <;> simp [hmem] <;> exact ⟨hinv, hg⟩

lemma guess_step_mono (allWords : List Word) (g : SpellingGame) (w : Word) (a : Nat)
    (h : g.state = GameState.FINISHED) :
    (SpellingGame.guess allWords g w a).1.state = GameState.FINISHED := by
  unfold SpellingGame.guess
  cases h1 : lookupWord g.words w with
  | some v =>
    cases v with
    | some u => exact h
    | none =>
      simp only []
      by_cases hall : allClaimed (setWord g.words w a) = true
      · simp [hall]
      · simp only [Bool.not_eq_true] at hall
        simp [hall, h]
  | none =>
    cases h2 : lookupWord g.other_words w with
    | some v =>
      cases v with
      | some u => exact h
      | none => exact h
    | none => by_cases hmem : w ∈ allWords <;> simp [hmem] <;> exact h

lemma guess_bonus_state (allWords : List Word) (g : SpellingGame) (w : Word) (a : Nat)
    (h : (SpellingGame.guess allWords g w a).2 = SpellSignal.bonus) :
    (SpellingGame.guess allWords g w a).1.state = g.state := by
  unfold SpellingGame.guess at h ⊢
  cases h1 : lookupWord g.words w with
  | some v =>
    cases v with
    | some u => rfl
    | none =>
      rw [h1] at h
      simp at h
  | none =>
    cases h2 : lookupWord g.other_words w with
    | some v =>
      cases v with
      | some u => rfl
      | none => rfl
    | none =>
      rw [h1, h2] at h
      by_cases hmem : w ∈ allWords <;> simp [hmem] at h

lemma playSeq_inv (allWords : List Word) (ms : List (Word × Nat)) (g : SpellingGame)
    (hms : ∀ m ∈ ms, m.2 ≠ 0) (hg : goodVals g.words) (hinv : SpellingInv g) :
    SpellingInv (playSeq allWords g ms) ∧ goodVals (playSeq allWords g ms).words := by
  induction ms generalizing g with
  | nil => exact ⟨hinv, hg⟩
  | cons m rest ih =>
    have hm : m.2 ≠ 0 := hms m (List.mem_cons_self m rest)
    have hrest : ∀ x ∈ rest, x.2 ≠ 0 := fun x hx => hms x (List.mem_cons_of_mem _ hx)
    have hstep := guess_step_inv allWords g m.1 m.2 hm hg hinv
    exact ih _ hrest hstep.2 hstep.1

lemma playSeq_mono (allWords : List Word) (ms : List (Word × Nat)) (g : SpellingGame)
    (h : g.state = GameState.FINISHED) :
    (playSeq allWords g ms).state = GameState.FINISHED := by
  induction ms generalizing g with
  | nil => exact h
  | cons m rest ih => exact ih _ (guess_step_mono allWords g m.1 m.2 h)

lemma allClaimed_iff_isSome (m : List (Word × Option Nat)) (h : goodVals m) :
    allClaimed m = true ↔ ∀ p ∈ m, p.2.isSome = true := by
  rw [allClaimed, List.all_eq_true]
  constructor
  · intro hall p hp
    have := hall p hp
    cases hv : p.2 with
    | none => rw [hv] at this; simp [truthy] at this
    | some n => rfl
  · intro hall p hp
    have h1 := hall p hp
    have h2 := h p hp
    cases hv : p.2 with
    | none => rw [hv] at h1; simp at h1
    | some n =>
      rw [hv] at h2
      have : n ≠ 0 := fun hn => h2 (by rw [hn])
      simp [truthy, this]

/-- Claim C3: starting from a `Continue` session (in which at least one
solution word is still unclaimed, as in every reachable `Continue` state)
and playing an arbitrary sequence of guesses by nonzero contributors, the
session is `FINISHED` exactly when every solution word carries a non-absent
attribution; a guess answered with the bonus signal never changes the state;
and once `FINISHED` the state survives any further guesses. -/
theorem spelling_completion (allWords : List Word) (g : SpellingGame)
    (ms : List (Word × Nat))
    (hstate : g.state = GameState.CONTINUE)
    (hunfinished : allClaimed g.words = false)
    (hgood : goodVals g.words)
    (hms : ∀ m ∈ ms, m.2 ≠ 0) :
    ((playSeq allWords g ms).state = GameState.FINISHED ↔
      ∀ p ∈ (playSeq allWords g ms).words, p.2.isSome = true) ∧
    (∀ w a, (SpellingGame.guess allWords (playSeq allWords g ms) w a).2 = SpellSignal.bonus →
      (SpellingGame.guess allWords (playSeq allWords g ms) w a).1.state
        = (playSeq allWords g ms).state) ∧
    (∀ ms2, (playSeq allWords g ms).state = GameState.FINISHED →
      (playSeq allWords (playSeq allWords g ms) ms2).state = GameState.FINISHED) := by
  have hinv0 : SpellingInv g := by
    rw [SpellingInv, hstate, hunfinished]
    simp
  obtain ⟨hinv, hgood2⟩ := playSeq_inv allWords ms g hms hgood hinv0
  refine ⟨?_, ?_, ?_⟩
  · rw [← allClaimed_iff_isSome _ hgood2]
    exact hinv
  · intro w a h
    exact guess_bonus_state allWords _ w a h
  · intro ms2 h
    exact playSeq_mono allWords ms2 _ h

/-- Concrete `Continue` session used by the Spelling-Bee witnesses: one
unclaimed solution word and one unclaimed bonus word. -/
def sbFreshExample : SpellingGame :=
  { state := GameState.CONTINUE
    deadline := 86400
    root_word := sbRootExample
    words := [(sbWordExample, none)]
    other_words := [(['х', 'л', 'е', 'б'], none)] }

theorem spelling_completion_witness :
    sbFreshExample.state = GameState.CONTINUE ∧
    allClaimed sbFreshExample.words = false ∧
    goodVals sbFreshExample.words ∧
    (∀ m ∈ [(sbWordExample, 5)], m.2 ≠ 0) ∧
    (((playSeq [] sbFreshExample [(sbWordExample, 5)]).state = GameState.FINISHED ↔
       ∀ p ∈ (playSeq [] sbFreshExample [(sbWordExample, 5)]).words, p.2.isSome = true) ∧
     (∀ w a, (SpellingGame.guess [] (playSeq [] sbFreshExample [(sbWordExample, 5)]) w a).2
         = SpellSignal.bonus →
       (SpellingGame.guess [] (playSeq [] sbFreshExample [(sbWordExample, 5)]) w a).1.state
         = (playSeq [] sbFreshExample [(sbWordExample, 5)]).state) ∧
     (∀ ms2, (playSeq [] sbFreshExample [(sbWordExample, 5)]).state = GameState.FINISHED →
       (playSeq [] (playSeq [] sbFreshExample [(sbWordExample, 5)]) ms2).state
         = GameState.FINISHED)) :=
  ⟨by decide, by decide, by unfold goodVals; decide, by decide,
    spelling_completion [] sbFreshExample [(sbWordExample, 5)]
      (by decide) (by decide) (by unfold goodVals; decide) (by decide)⟩

/-- Claim C4: a guess of a word whose solution slot is already claimed — or
that is no solution word while its bonus slot is already claimed — returns
the already-claimed signal and leaves the whole session unchanged, whoever
guesses it. -/
theorem spelling_guess_idempotent (allWords : List Word) (g : SpellingGame)
    (w : Word) (author : Nat)
    (h : (∃ u, lookupWord g.words w = some (some u)) ∨
         (lookupWord g.words w = none ∧
          ∃ u, lookupWord g.other_words w = some (some u))) :
    SpellingGame.guess allWords g w author = (g, SpellSignal.again) := by
  unfold SpellingGame.guess
  rcases h with ⟨u, hu⟩ | ⟨h1, u, hu⟩
  · rw [hu]
  · rw [h1, hu]

/-- Concrete session with one claimed solution word, for the idempotence
witness. -/
def sbClaimedExample : SpellingGame :=
  { state := GameState.CONTINUE
    deadline := 86400
    root_word := sbRootExample
    words := [(sbWordExample, some 5)]
    other_words := [(['х', 'л', 'е', 'б'], none)] }

theorem spelling_guess_idempotent_witness :
    ((∃ u, lookupWord sbClaimedExample.words sbWordExample = some (some u)) ∨
     (lookupWord sbClaimedExample.words sbWordExample = none ∧
      ∃ u, lookupWord sbClaimedExample.other_words sbWordExample = some (some u))) ∧
    SpellingGame.guess [] sbClaimedExample sbWordExample 103
      = (sbClaimedExample, SpellSignal.again) :=
  ⟨Or.inl ⟨5, by decide⟩,
    spelling_guess_idempotent [] sbClaimedExample sbWordExample 103 (Or.inl ⟨5, by decide⟩)⟩

/-- Counterexample to claim C3 as stated: the program itself (via the
`shuffle` admin command) constructs `Continue` sessions in which every
solution word already carries a non-absent attribution.  In such a session a
further guess — here of the claimed word itself — returns the already-claimed
signal and leaves the state `Continue`, although every solution word has a
non-absent attribution: the code sets `FINISHED` only when a *new* solution
word is claimed, so "after any guess, the state is Finished exactly when
every solution word has a non-absent attribution" is false there. -/
theorem spelling_completion_cex :
    sbClaimedExample.state = GameState.CONTINUE ∧
    SpellingGame.guess [] sbClaimedExample sbWordExample 103
      = (sbClaimedExample, SpellSignal.again) ∧
    sbClaimedExample.words = [(sbWordExample, some 5)] ∧
    sbClaimedExample.state ≠ GameState.FINISHED := by
  decide

/-- `NATIVE_NAMES` in `winners_and_losers` (six entries, although ids up to
19 are routed to it). -/
def NATIVE_NAMES : List String :=
  ["Сладкая Пилюля", "ЯЖПОГРОМИСТ", "Fish-Teacher", "Trogdor the destroyer",
   "He🇧🇧🇧🇧🇧🇧🇧", "Ксения"]

/-- `LEARNER_NAMES` in `winners_and_losers` (five entries, although ids 101
to 119 are routed to it). -/
def LEARNER_NAMES : List String :=
  ["Kwinten", "Liisa", "Leeto", "Zalamلظلام", "ХАРА́М"]

/-- Python `set.add` on a membership-deduplicated list of display names. -/
def insertName (l : List String) (n : String) : List String :=
  if n ∈ l then l else l ++ [n]

/-- A scoring team (`Team` named tuple). -/
structure Team where
  name : String
  score : Nat
  members : List String
deriving DecidableEq, Repr

/-- Accumulator of the attribution walk in `winners_and_losers`. -/
structure Cohorts where
  natives_score : Nat
  natives : List String
  learners_score : Nat
  learners : List String
deriving DecidableEq, Repr

/-- One step of the attribution walk.  Reserved id ranges index into the
fixed rosters; an out-of-roster reserved id raises `IndexError`
(`Except.error`).  Any other id is resolved against guild membership via
`resolve` (display name and whether the member has the Native role);
unresolvable ids are skipped. -/
def tallyUser (resolve : Nat → Option (String × Bool)) (acc : Cohorts)
    (uid : Option Nat) : Except Unit Cohorts :=
  match uid with
  | none => .ok acc
  | some u =>
    if u = 0 then .ok acc
    else if 1 ≤ u ∧ u < 20 then
      match NATIVE_NAMES.get? (u - 1) with
      | some nm => .ok { acc with natives := insertName acc.natives nm,
                                  natives_score := acc.natives_score + 1 }
      | none => .error ()
    else if 101 ≤ u ∧ u < 120 then
      match LEARNER_NAMES.get? (u - 101) with
      | some nm => .ok { acc with learners := insertName acc.learners nm,
                                  learners_score := acc.learners_score + 1 }
      | none => .error ()
    else
      match resolve u with
      | none => .ok acc
      | some (nm, isNative) =>
        if isNative then
          .ok { acc with natives := insertName acc.natives nm,
                         natives_score := acc.natives_score + 1 }
        else
          .ok { acc with learners := insertName acc.learners nm,
                         learners_score := acc.learners_score + 1 }

/-- The whole attribution walk over the merged dict's values. -/
def tallyAll (resolve : Nat → Option (String × Bool)) (vals : List (Option Nat)) :
    Except Unit Cohorts :=
  vals.foldlM (tallyUser resolve) ⟨0, [], 0, []⟩

/-- Python `self.words | self.other_words` on association lists: keys of the
left dict (values overridden by the right dict where present), followed by
the right dict's new keys. -/
def mergeDicts (a b : List (Word × Option Nat)) : List (Word × Option Nat) :=
  (a.map fun p =>
    match lookupWord b p.1 with
    | some v => (p.1, v)
    | none => p) ++
  b.filter fun p => (lookupWord a p.1).isNone

/-- `SpellingGame.winners_and_losers`: `None, None` when nobody scored,
otherwise the winner team and the loser team, learners winning ties. -/
def SpellingGame.winners_and_losers (resolve : Nat → Option (String × Bool))
    (g : SpellingGame) : Except Unit (Option (Team × Team)) :=
  match tallyAll resolve ((mergeDicts g.words g.other_words).map Prod.snd) with
  | .error e => .error e
  | .ok c =>
    if c.natives_score = 0 ∧ c.learners_score = 0 then .ok none
    else
      let natives_team : Team := ⟨"natives", c.natives_score, c.natives⟩
      let learners_team : Team := ⟨"learners", c.learners_score, c.learners⟩
      .ok (some (if c.learners_score ≥ c.natives_score
        then (learners_team, natives_team)
        else (natives_team, learners_team)))

/-- Session whose single attribution is the reserved native id 7, which is
inside the reserved range 1..19 but outside the six-name roster. -/
def sbRosterCrashExample : SpellingGame :=
  { state := GameState.CONTINUE
    deadline := 86400
    root_word := sbRootExample
    words := [(sbWordExample, some 7)]
    other_words := [] }

/-- Counterexample to claim C5 as stated: for the attribution mapping that
assigns the reserved id 7 to one word, `winners_and_losers` raises
`IndexError` (the native roster has only six names) instead of returning a
winner/loser pair or the no-participation signal. -/
theorem spelling_winners_crash_cex :
    SpellingGame.winners_and_losers (fun _ => none) sbRosterCrashExample
      = Except.error () := by
  rfl

/-- Attribution values whose reserved-range ids stay inside the fixed
rosters (natives 1..6, learners 101..105); every id the program itself
generates for the reserved ranges satisfies this. -/
def rosterSafe : Option Nat → Prop
  | none => True
  | some u => (1 ≤ u → u < 20 → u ≤ 6) ∧ (101 ≤ u → u < 120 → u ≤ 105)

instance rosterSafeDecidable : DecidablePred rosterSafe := by
  intro v
  unfold rosterSafe
  cases v
  · exact inferInstanceAs (Decidable True)
  · exact inferInstanceAs (Decidable _)

lemma tallyUser_ok (resolve : Nat → Option (String × Bool)) (acc : Cohorts)
    (uid : Option Nat) (h : rosterSafe uid) :
    ∃ c, tallyUser resolve acc uid = .ok c := by
  cases uid with
  | none => exact ⟨acc, rfl⟩
  | some u =>
    replace h : (1 ≤ u → u < 20 → u ≤ 6) ∧ (101 ≤ u → u < 120 → u ≤ 105) := h
    show ∃ c, (if u = 0 then Except.ok acc
      else if 1 ≤ u ∧ u < 20 then
        match NATIVE_NAMES.get? (u - 1) with
        | some nm => Except.ok { acc with natives := insertName acc.natives nm,
                                          natives_score := acc.natives_score + 1 }
        | none => Except.error ()
      else if 101 ≤ u ∧ u < 120 then
        match LEARNER_NAMES.get? (u - 101) with
        | some nm => Except.ok { acc with learners := insertName acc.learners nm,
                                          learners_score := acc.learners_score + 1 }
        | none => Except.error ()
      else
        match resolve u with
        | none => Except.ok acc
        | some (nm, isNative) =>
          if isNative then
            Except.ok { acc with natives := insertName acc.natives nm,
                                 natives_score := acc.natives_score + 1 }
          else
            Except.ok { acc with learners := insertName acc.learners nm,
                                 learners_score := acc.learners_score + 1 }) = .ok c
    by_cases h0 : u = 0
    · simp [h0]
    · rw [if_neg h0]
      by_cases h1 : 1 ≤ u ∧ u < 20
      · rw [if_pos h1]
        have hu : u - 1 < NATIVE_NAMES.length := by
          have := h.1 h1.1 h1.2
          simp only [NATIVE_NAMES, List.length_cons, List.length_nil]
          omega
        cases hN : NATIVE_NAMES.get? (u - 1) with
        | none =>
          rw [List.get?_eq_none] at hN
          omega
        | some nm => exact ⟨_, rfl⟩
      · rw [if_neg h1]
        by_cases h2 : 101 ≤ u ∧ u < 120
        · rw [if_pos h2]
          have hu : u - 101 < LEARNER_NAMES.length := by
            have := h.2 h2.1 h2.2
            simp only [LEARNER_NAMES, List.length_cons, List.length_nil]
            omega
          cases hN : LEARNER_NAMES.get? (u - 101) with
          | none =>
            rw [List.get?_eq_none] at hN
            omega
          | some nm => exact ⟨_, rfl⟩
        · rw [if_neg h2]
          cases hr : resolve u with
          | none => exact ⟨acc, rfl⟩
          | some p =>
            obtain ⟨nm, isNative⟩ := p
            cases isNative <;> exact ⟨_, rfl⟩

lemma foldlM_tally_ok (resolve : Nat → Option (String × Bool)) :
    ∀ (vals : List (Option Nat)) (acc : Cohorts), (∀ v ∈ vals, rosterSafe v) →
      ∃ c, List.foldlM (tallyUser resolve) acc vals = .ok c := by
  intro vals
  induction vals with
  | nil => exact fun acc _ => ⟨acc, rfl⟩
  | cons v rest ih =>
    intro acc h
    obtain ⟨c1, hc1⟩ := tallyUser_ok resolve acc v (h v (List.mem_cons_self v rest))
    obtain ⟨c2, hc2⟩ := ih c1 (fun x hx => h x (List.mem_cons_of_mem _ hx))
    refine ⟨c2, ?_⟩
    rw [List.foldlM_cons, hc1]
    simpa using hc2

/-- Claim C5, amended: provided every reserved-range attribution id stays
inside the fixed rosters (as every id the program generates does), the
attribution walk succeeds, `winners_and_losers` returns the
no-participation signal exactly when both cohort scores are zero, and
otherwise exactly one winner and one loser team, the learners winning
whenever their score is at least the natives' score. -/
theorem spelling_winners_and_losers_spec (resolve : Nat → Option (String × Bool))
    (g : SpellingGame)
    (h : ∀ v ∈ (mergeDicts g.words g.other_words).map Prod.snd, rosterSafe v) :
    ∃ c, tallyAll resolve ((mergeDicts g.words g.other_words).map Prod.snd)
        = Except.ok c ∧
      (c.natives_score = 0 ∧ c.learners_score = 0 →
        SpellingGame.winners_and_losers resolve g = Except.ok none) ∧
      (¬(c.natives_score = 0 ∧ c.learners_score = 0) →
        SpellingGame.winners_and_losers resolve g = Except.ok (some
          (if c.learners_score ≥ c.natives_score
            then (⟨"learners", c.learners_score, c.learners⟩,
                  ⟨"natives", c.natives_score, c.natives⟩)
            else (⟨"natives", c.natives_score, c.natives⟩,
                  ⟨"learners", c.learners_score, c.learners⟩)))) := by
  obtain ⟨c, hc⟩ := foldlM_tally_ok resolve
    ((mergeDicts g.words g.other_words).map Prod.snd) ⟨0, [], 0, []⟩ h
  have hall : tallyAll resolve ((mergeDicts g.words g.other_words).map Prod.snd)
      = Except.ok c := hc
  refine ⟨c, hall, ?_, ?_⟩
  · intro hz
    unfold SpellingGame.winners_and_losers
    rw [hall]
    simp [hz]
  · intro hnz
    unfold SpellingGame.winners_and_losers
    rw [hall]
    simp only [hnz, if_false]

theorem spelling_winners_and_losers_witness :
    (∀ v ∈ (mergeDicts sbClaimedExample.words sbClaimedExample.other_words).map Prod.snd,
      rosterSafe v) ∧
    ∃ c, tallyAll (fun _ => none)
        ((mergeDicts sbClaimedExample.words sbClaimedExample.other_words).map Prod.snd)
        = Except.ok c ∧
      (c.natives_score = 0 ∧ c.learners_score = 0 →
        SpellingGame.winners_and_losers (fun _ => none) sbClaimedExample = Except.ok none) ∧
      (¬(c.natives_score = 0 ∧ c.learners_score = 0) →
        SpellingGame.winners_and_losers (fun _ => none) sbClaimedExample = Except.ok (some
          (if c.learners_score ≥ c.natives_score
            then (⟨"learners", c.learners_score, c.learners⟩,
                  ⟨"natives", c.natives_score, c.natives⟩)
            else (⟨"natives", c.natives_score, c.natives⟩,
                  ⟨"learners", c.learners_score, c.learners⟩)))) :=
  ⟨by decide, spelling_winners_and_losers_spec (fun _ => none) sbClaimedExample (by decide)⟩

/-- Counterexample to claim C6 as stated: for a game created half an hour
past the hour (epoch second 1800), the code's deadline is the *current*
hour boundary plus 24 hours (86400), not the next top-of-hour plus 24 hours
(90000). -/
theorem spelling_deadline_cex :
    (spellingInit [] [] 1800 []).deadline = 86400 ∧
    specNextTopOfHourDeadline 1800 = 90000 ∧
    (spellingInit [] [] 1800 []).deadline ≠ specNextTopOfHourDeadline 1800 := by
  refine ⟨rfl, rfl, ?_⟩
  decide

/-- Claim C6, amended: the deadline of a freshly created game is the
creation time truncated *down* to the enclosing top-of-hour, plus 24 hours —
the unique hour-aligned instant in the half-open interval
`(now + 23h, now + 24h]`. -/
theorem spelling_deadline_spec (allWords commonWords : List Word) (now : Int)
    (root : Word) :
    (spellingInit allWords commonWords now root).deadline = hourFloor now + 24 * 3600 ∧
    (spellingInit allWords commonWords now root).deadline % 3600 = 0 ∧
    (spellingInit allWords commonWords now root).deadline ≤ now + 24 * 3600 ∧
    now + 24 * 3600 < (spellingInit allWords commonWords now root).deadline + 3600 := by
  have hd : (spellingInit allWords commonWords now root).deadline
      = now - now % 3600 + 24 * 3600 := rfl
  rw [hd]
  refine ⟨rfl, ?_, ?_, ?_⟩ <;> omega

/-- One `check_deadline` sweep of `Spelling`: `now` is the float timestamp
of the tick (modelled as a rational), the channel table maps channel ids to
their optional game, and the result lists the channels whose game the sweep
force-stops (`now + 1 >= game.deadline` for a `Continue` game). -/
def checkDeadlineSweep (now : ℚ) (channels : List (Nat × Option SpellingGame)) :
    List Nat :=
  channels.filterMap fun p =>
    match p.2 with
    | none => none
    | some g =>
      if g.state = GameState.CONTINUE ∧ now + 1 ≥ (g.deadline : ℚ) then some p.1
      else none

/-- A `Continue` session with deadline 100 for the scheduler counterexample. -/
def sbDeadlineGameExample : SpellingGame :=
  { state := GameState.CONTINUE
    deadline := 100
    root_word := sbRootExample
    words := [(sbWordExample, none)]
    other_words := [] }

/-- Counterexample to claim C7 as stated: a tick observed at time 99,
strictly before the deadline 100, already forces the stop (the code fires
whenever `now + 1 >= deadline`), so "a tick observed strictly before D
never forces this transition" is false. -/
theorem check_deadline_cex :
    (99 : ℚ) < ((sbDeadlineGameExample.deadline : ℚ)) ∧
    checkDeadlineSweep 99 [(1, some sbDeadlineGameExample)] = [1] := by
  constructor
  · norm_num [sbDeadlineGameExample]
  · have hcond : sbDeadlineGameExample.state = GameState.CONTINUE ∧
        (99 : ℚ) + 1 ≥ ((sbDeadlineGameExample.deadline : ℚ)) := by
      constructor
      · rfl
      · norm_num [sbDeadlineGameExample]
    unfold checkDeadlineSweep
    rw [List.filterMap_cons]
    dsimp only
    rw [if_pos hcond, List.filterMap_nil]

/-- Claim C7, amended: a scheduler tick at time `t` forces the stop of a
channel's session exactly when the session exists, is in the `Continue`
state and `t ≥ D − 1` (one second of leeway); in particular ticks in
`[D − 1, D)` do force the transition (the code merely logs a warning
there), and ticks strictly before `D − 1` never do. -/
theorem check_deadline_spec (now : ℚ) (chans : List (Nat × Option SpellingGame))
    (c : Nat) :
    c ∈ checkDeadlineSweep now chans ↔
      ∃ g, (c, some g) ∈ chans ∧ g.state = GameState.CONTINUE ∧
        (g.deadline : ℚ) - 1 ≤ now := by
  unfold checkDeadlineSweep
  rw [List.mem_filterMap]
  constructor
  · rintro ⟨p, hp, hsome⟩
    obtain ⟨ch, g?⟩ := p
    cases g? with
    | none => simp at hsome
    | some g =>
      dsimp only at hsome
      by_cases hcond : g.state = GameState.CONTINUE ∧ now + 1 ≥ (g.deadline : ℚ)
      · rw [if_pos hcond] at hsome
        obtain rfl : ch = c := by simpa using hsome
        exact ⟨g, hp, hcond.1, by linarith [hcond.2]⟩
      · rw [if_neg hcond] at hsome
        simp at hsome
  · rintro ⟨g, hg, hstate, hle⟩
    refine ⟨(c, some g), hg, ?_⟩
    dsimp only
    rw [if_pos ⟨hstate, by linarith⟩]

/-- Observable effect of one `stop_game` call: the stored session after the
call (before any replacement), whether a snapshot file write happened, and
whether a brand-new game gets started. -/
structure StopOutcome (G : Type) where
  stored : Option G
  wroteSnapshot : Bool
  startedNewGame : Bool
deriving DecidableEq, Repr

/-- `Wordle.stop_game`: a missing game or a game already `RESTARTING` is a
no-op; otherwise the state is set to `RESTARTING`, the snapshot is written
and a new game is started after the pause. -/
def wordleStopGame (g? : Option WordleGame) : StopOutcome WordleGame :=
  match g? with
  | none => ⟨none, false, false⟩
  | some g =>
    if g.state = GameState.RESTARTING then ⟨some g, false, false⟩
    else ⟨some { g with state := GameState.RESTARTING }, true, true⟩

/-- `Spelling.stop_game`: identical guard structure to the Wordle variant
(the archival write and announcement happen only past the guard). -/
def spellingStopGame (g? : Option SpellingGame) : StopOutcome SpellingGame :=
  match g? with
  | none => ⟨none, false, false⟩
  | some g =>
    if g.state = GameState.RESTARTING then ⟨some g, false, false⟩
    else ⟨some { g with state := GameState.RESTARTING }, true, true⟩

/-- Claim C8: in both game variants, a stop/restart request that observes a
session already in the `Restarting` state is a complete no-op — the session
is unchanged, no snapshot is written, and no new game is started.  (Every
stop/restart trigger — guess completion, administrative stop, scheduler
tick — funnels through `stop_game`.) -/
theorem stop_game_restarting_noop (gw : WordleGame) (gs : SpellingGame) :
    (gw.state = GameState.RESTARTING →
      wordleStopGame (some gw) = ⟨some gw, false, false⟩) ∧
    (gs.state = GameState.RESTARTING →
      spellingStopGame (some gs) = ⟨some gs, false, false⟩) := by
  constructor
  · intro h
    show (if gw.state = GameState.RESTARTING
      then (⟨some gw, false, false⟩ : StopOutcome WordleGame)
      else ⟨some { gw with state := GameState.RESTARTING }, true, true⟩) = _
    rw [if_pos h]
  · intro h
    show (if gs.state = GameState.RESTARTING
      then (⟨some gs, false, false⟩ : StopOutcome SpellingGame)
      else ⟨some { gs with state := GameState.RESTARTING }, true, true⟩) = _
    rw [if_pos h]

/-- A Wordle session caught mid-restart. -/
def wordleRestartingExample : WordleGame :=
  { state := GameState.RESTARTING, guesses := 3, solution := wordleSolExample }

/-- A Spelling-Bee session caught mid-restart. -/
def sbRestartingExample : SpellingGame :=
  { state := GameState.RESTARTING
    deadline := 86400
    root_word := sbRootExample
    words := [(sbWordExample, some 5)]
    other_words := [] }

theorem stop_game_restarting_noop_witness :
    wordleRestartingExample.state = GameState.RESTARTING ∧
    sbRestartingExample.state = GameState.RESTARTING ∧
    wordleStopGame (some wordleRestartingExample)
      = ⟨some wordleRestartingExample, false, false⟩ ∧
    spellingStopGame (some sbRestartingExample)
      = ⟨some sbRestartingExample, false, false⟩ :=
  ⟨rfl, rfl,
    (stop_game_restarting_noop wordleRestartingExample sbRestartingExample).1 rfl,
    (stop_game_restarting_noop wordleRestartingExample sbRestartingExample).2 rfl⟩

/-- `ALPHABET`, the 33-letter collation alphabet. -/
def ALPHABET : Word := "абвгдеёжзийклмнопрстуфхцчшщъыьэюя".toList

/-- Python's sort key `[ALPHABET.index(c) for c in s]`. -/
def collationKey (w : Word) : List Nat := w.map fun c => ALPHABET.indexOf c

/-- Lexicographic comparison of collation keys (Python list comparison). -/
def keyLe : List Nat → List Nat → Bool
  | [], _ => true
  | _ :: _, [] => false
  | a :: as, b :: bs => if a < b then true else if b < a then false else keyLe as bs

/-- Word order used by both corpus sorts. -/
def wordLe (a b : Word) : Bool := keyLe (collationKey a) (collationKey b)

/-- Insertion into a sorted list (stable sorting model of `list.sort(key=...)`;
only the permutation property matters below). -/
def insertSorted (w : Word) : List Word → List Word
  | [] => [w]
  | v :: vs => if wordLe w v then w :: v :: vs else v :: insertSorted w vs

/-- The corpus sort. -/
def sortWords (l : List Word) : List Word := l.foldr insertSorted []

/-- `list(dict.fromkeys(...))`: first-occurrence deduplication. -/
def dedupKeepFirst (seen : List Word) : List Word → List Word
  | [] => []
  | w :: ws =>
    if w ∈ seen then dedupKeepFirst seen ws
    else w :: dedupKeepFirst (w :: seen) ws

/-- Lines 27–31 of the source: `all_words` is the wiktionary list, extended
with the curated common list, deduplicated keeping first occurrences, and
sorted by the custom collation.  The removed-words denylist is *not*
consulted here. -/
def loadAllWords (wiki common : List Word) : List Word :=
  sortWords (dedupKeepFirst [] (wiki ++ common))

/-- Lines 44–50 of the source: each denylist word is removed (first
occurrence, silently skipping missing words) from the curated common list. -/
def removeAll (common removed : List Word) : List Word :=
  removed.foldl (fun acc w => acc.erase w) common

lemma insertSorted_perm (w : Word) (l : List Word) :
    List.Perm (insertSorted w l) (w :: l) := by
  induction l with
  | nil => exact List.Perm.refl _
  | cons v vs ih =>
    unfold insertSorted
    by_cases h : wordLe w v = true
    · rw [if_pos h]
    · rw [if_neg h]
      exact (ih.cons v).trans (List.Perm.swap w v vs)

lemma sortWords_perm (l : List Word) : List.Perm (sortWords l) l := by
  induction l with
  | nil => exact List.Perm.refl _
  | cons w ws ih =>
    exact (insertSorted_perm w (sortWords ws)).trans (ih.cons w)

lemma dedupKeepFirst_mem (w : Word) :
    ∀ (l : List Word) (seen : List Word),
      w ∈ dedupKeepFirst seen l ↔ (w ∈ l ∧ w ∉ seen) := by
  intro l
  induction l with
  | nil => intro seen; simp [dedupKeepFirst]
  | cons v vs ih =>
    intro seen
    unfold dedupKeepFirst
    by_cases hv : v ∈ seen
    · rw [if_pos hv, ih]
      constructor
      · rintro ⟨h1, h2⟩
        exact ⟨List.mem_cons_of_mem _ h1, h2⟩
      · rintro ⟨h1, h2⟩
        rcases List.mem_cons.mp h1 with rfl | h1
        · exact absurd hv h2
        · exact ⟨h1, h2⟩
    · rw [if_neg hv, List.mem_cons, ih]
      constructor
      · rintro (rfl | ⟨h1, h2⟩)
        · exact ⟨List.mem_cons_self _ _, hv⟩
        · exact ⟨List.mem_cons_of_mem _ h1,
            fun hs => h2 (List.mem_cons_of_mem _ hs)⟩
      · rintro ⟨h1, h2⟩
        rcases List.mem_cons.mp h1 with rfl | h1
        · exact Or.inl rfl
        · by_cases hw : w = v
          · exact Or.inl hw
          · exact Or.inr ⟨h1, fun hs => by
              rcases List.mem_cons.mp hs with h | h
              · exact hw h
              · exact h2 h⟩

lemma dedupKeepFirst_nodup :
    ∀ (l : List Word) (seen : List Word), (dedupKeepFirst seen l).Nodup := by
  intro l
  induction l with
  | nil => intro seen; simp [dedupKeepFirst]
  | cons v vs ih =>
    intro seen
    unfold dedupKeepFirst
    by_cases hv : v ∈ seen
    · rw [if_pos hv]
      exact ih seen
    · rw [if_neg hv, List.nodup_cons]
      refine ⟨?_, ih (v :: seen)⟩
      intro hmem
      exact ((dedupKeepFirst_mem v vs (v :: seen)).mp hmem).2 (List.mem_cons_self _ _)

lemma removeAll_subset : ∀ (removed common : List Word) (w : Word),
    w ∈ removeAll common removed → w ∈ common := by
  intro removed
  induction removed with
  | nil => intro common w h; exact h
  | cons r rs ih =>
    intro common w h
    have h1 : w ∈ common.erase r := ih (common.erase r) w h
    exact List.erase_subset _ _ h1

lemma removeAll_mem_of_not_removed : ∀ (removed common : List Word) (w : Word),
    w ∉ removed → (w ∈ removeAll common removed ↔ w ∈ common) := by
  intro removed
  induction removed with
  | nil => intro common w _; exact Iff.rfl
  | cons r rs ih =>
    intro common w hw
    have hwr : w ≠ r := fun h => hw (h ▸ List.mem_cons_self r rs)
    have hwrs : w ∉ rs := fun h => hw (List.mem_cons_of_mem _ h)
    rw [show removeAll common (r :: rs) = removeAll (common.erase r) rs from rfl,
      ih (common.erase r) w hwrs]
    exact List.mem_erase_of_ne hwr

lemma removeAll_not_mem : ∀ (removed common : List Word) (w : Word),
    common.Nodup → w ∈ removed → w ∉ removeAll common removed := by
  intro removed
  induction removed with
  | nil => intro common w _ h; exact absurd h (List.not_mem_nil w)
  | cons r rs ih =>
    intro common w hnd hw hmem
    rw [show removeAll common (r :: rs) = removeAll (common.erase r) rs from rfl] at hmem
    rcases List.mem_cons.mp hw with rfl | hw2
    · exact hnd.not_mem_erase (removeAll_subset rs (common.erase w) w hmem)
    · exact ih (common.erase r) w (hnd.erase r) hw2 hmem

/-- Counterexample to claim C9 as stated: with the reference list
`["абв"]`, the curated list `["абг"]` and the denylist `["абв"]`, the word
`абв` is on the denylist yet remains in the merged membership corpus — the
code strips the denylist from the curated common list only, never from
`all_words`. -/
theorem corpus_denylist_cex :
    (['а', 'б', 'в'] : Word) ∈
      loadAllWords [['а', 'б', 'в']] [['а', 'б', 'г']] ∧
    (['а', 'б', 'в'] : Word) ∈ [(['а', 'б', 'в'] : Word)] := by
  constructor
  · exact (sortWords_perm _).mem_iff.mpr
      ((dedupKeepFirst_mem _ _ _).mpr (by decide))
  · exact List.mem_cons_self _ _

/-- Claim C9, amended: the merged corpus is exactly the de-duplicated union
of the reference list and the curated list (no denylist filtering); the
denylist is instead removed from the curated common list — a word off the
denylist keeps its common-list membership, and (the curated list having no
duplicate lines) every denylisted word disappears from the common list. -/
theorem corpus_load_spec (wiki common removed : List Word) (w : Word) :
    (w ∈ loadAllWords wiki common ↔ (w ∈ wiki ∨ w ∈ common)) ∧
    (loadAllWords wiki common).Nodup ∧
    (w ∉ removed → (w ∈ removeAll common removed ↔ w ∈ common)) ∧
    (common.Nodup → w ∈ removed → w ∉ removeAll common removed) := by
  refine ⟨?_, ?_, ?_, ?_⟩
  · unfold loadAllWords
    rw [(sortWords_perm _).mem_iff, dedupKeepFirst_mem]
    simp
  · exact ((sortWords_perm _).nodup_iff).mpr (dedupKeepFirst_nodup _ [])
  · exact removeAll_mem_of_not_removed removed common w
  · intro hnd hw
    exact removeAll_not_mem removed common w hnd hw

theorem corpus_load_spec_witness :
    ((['а', 'б', 'г'] : Word) ∉ ([['а', 'б', 'в']] : List Word)) ∧
    ([['а', 'б', 'г']] : List Word).Nodup ∧
    (['а', 'б', 'в'] : Word) ∈ ([['а', 'б', 'в']] : List Word) ∧
    ((['а', 'б', 'г'] : Word) ∈ removeAll [['а', 'б', 'г']] [['а', 'б', 'в']] ↔
      (['а', 'б', 'г'] : Word) ∈ ([['а', 'б', 'г']] : List Word)) ∧
    (['а', 'б', 'в'] : Word) ∉ removeAll [['а', 'б', 'г']] [['а', 'б', 'в']] ∧
    ((['а', 'б', 'в'] : Word) ∈ loadAllWords [['а', 'б', 'в']] [['а', 'б', 'г']] ↔
      ((['а', 'б', 'в'] : Word) ∈ ([['а', 'б', 'в']] : List Word) ∨
       (['а', 'б', 'в'] : Word) ∈ ([['а', 'б', 'г']] : List Word))) ∧
    (loadAllWords [['а', 'б', 'в']] [['а', 'б', 'г']]).Nodup :=
  ⟨by decide, by decide, by decide,
   (corpus_load_spec [['а', 'б', 'в']] [['а', 'б', 'г']] [['а', 'б', 'в']]
     ['а', 'б', 'г']).2.2.1 (by decide),
   (corpus_load_spec [['а', 'б', 'в']] [['а', 'б', 'г']] [['а', 'б', 'в']]
     ['а', 'б', 'в']).2.2.2 (by decide) (by decide),
   (corpus_load_spec [['а', 'б', 'в']] [['а', 'б', 'г']] [['а', 'б', 'в']]
     ['а', 'б', 'в']).1,
   (corpus_load_spec [['а', 'б', 'в']] [['а', 'б', 'г']] [['а', 'б', 'в']]
     ['а', 'б', 'в']).2.1⟩

/-- JSON values as produced by `json.dump(game.__dict__)` for the two game
variants: null, integers, strings (kept as `Word`s), and objects with
insertion-ordered keys. -/
inductive Json where
  | null : Json
  | num : Int → Json
  | str : Word → Json
  | dict : List (Word × Json) → Json

/-- Encoding of an attribution value (`None` or an id). -/
def encodeAttr : Option Nat → Json
  | none => .null
  | some u => .num u

/-- Decoding of an attribution value. -/
def decodeAttr : Json → Option (Option Nat)
  | .null => some none
  | .num n => if n < 0 then none else some (some n.toNat)
  | _ => none

/-- Encoding of a word→attribution dict. -/
def encodeAttrList (m : List (Word × Option Nat)) : List (Word × Json) :=
  m.map fun p => (p.1, encodeAttr p.2)

/-- Decoding of a word→attribution dict. -/
def decodeAttrList : List (Word × Json) → Option (List (Word × Option Nat))
  | [] => some []
  | (w, j) :: rest =>
    match decodeAttr j, decodeAttrList rest with
    | some v, some r => some ((w, v) :: r)
    | _, _ => none

/-- `json.dump(game.__dict__)` for a `WordleGame` (field insertion order). -/
def encodeWordle (g : WordleGame) : Json :=
  .dict [("state".toList, .num g.state.toInt),
         ("guesses".toList, .num (g.guesses : Int)),
         ("solution".toList, .str g.solution)]

/-- `WordleGame.__init__(resume)` from a parsed snapshot. -/
def decodeWordle : Json → Option WordleGame
  | .dict [(k1, .num st), (k2, .num gu), (k3, .str sol)] =>
    if k1 = "state".toList ∧ k2 = "guesses".toList ∧ k3 = "solution".toList ∧ 0 ≤ gu then
      match GameState.ofInt st with
      | some s => some ⟨s, gu.toNat, sol⟩
      | none => none
    else none
  | _ => none

/-- `json.dump(game.__dict__)` for a `SpellingGame`. -/
def encodeSpelling (g : SpellingGame) : Json :=
  .dict [("state".toList, .num g.state.toInt),
         ("deadline".toList, .num g.deadline),
         ("root_word".toList, .str g.root_word),
         ("words".toList, .dict (encodeAttrList g.words)),
         ("other_words".toList, .dict (encodeAttrList g.other_words))]

/-- `SpellingGame.__init__(resume)` from a parsed snapshot. -/
def decodeSpelling : Json → Option SpellingGame
  | .dict [(k1, .num st), (k2, .num dl), (k3, .str root), (k4, .dict wj), (k5, .dict oj)] =>
    if k1 = "state".toList ∧ k2 = "deadline".toList ∧ k3 = "root_word".toList ∧
       k4 = "words".toList ∧ k5 = "other_words".toList then
      match GameState.ofInt st, decodeAttrList wj, decodeAttrList oj with
      | some s, some ws, some os => some ⟨s, dl, root, ws, os⟩
      | _, _, _ => none
    else none
  | _ => none

lemma GameState.ofInt_toInt (s : GameState) : GameState.ofInt s.toInt = some s := by
  cases s <;> rfl

lemma decodeAttrList_encodeAttrList (m : List (Word × Option Nat)) :
    decodeAttrList (encodeAttrList m) = some m := by
  induction m with
  | nil => rfl
  | cons p rest ih =>
    obtain ⟨w, v⟩ := p
    cases v with
    | none =>
      show decodeAttrList ((w, Json.null) :: encodeAttrList rest) = _
      unfold decodeAttrList
      rw [ih]
      rfl
    | some u =>
      show decodeAttrList ((w, Json.num u) :: encodeAttrList rest) = _
      unfold decodeAttrList
      rw [ih]
      show (match decodeAttr (Json.num u), some rest with
        | some v, some r => some ((w, v) :: r)
        | _, _ => none) = _
      have : decodeAttr (Json.num (u : Int)) = some (some u) := by
        show (if (u : Int) < 0 then none else some (some (u : Int).toNat)) = some (some u)
        rw [if_neg (by omega), Int.toNat_natCast]
      rw [this]

lemma decodeWordle_encodeWordle (g : WordleGame) :
    decodeWordle (encodeWordle g) = some g := by
  obtain ⟨st, gu, sol⟩ := g
  show (if "state".toList = "state".toList ∧ "guesses".toList = "guesses".toList ∧
        "solution".toList = "solution".toList ∧ 0 ≤ (gu : Int) then
      match GameState.ofInt st.toInt with
      | some s => some (⟨s, (gu : Int).toNat, sol⟩ : WordleGame)
      | none => none
    else none) = some ⟨st, gu, sol⟩
  rw [if_pos ⟨rfl, rfl, rfl, by omega⟩, GameState.ofInt_toInt]
  rw [Int.toNat_natCast]

lemma decodeSpelling_encodeSpelling (g : SpellingGame) :
    decodeSpelling (encodeSpelling g) = some g := by
  obtain ⟨st, dl, root, ws, os⟩ := g
  show (if "state".toList = "state".toList ∧ "deadline".toList = "deadline".toList ∧
        "root_word".toList = "root_word".toList ∧ "words".toList = "words".toList ∧
        "other_words".toList = "other_words".toList then
      match GameState.ofInt st.toInt, decodeAttrList (encodeAttrList ws),
          decodeAttrList (encodeAttrList os) with
      | some s, some w2, some o2 => some (⟨s, dl, root, w2, o2⟩ : SpellingGame)
      | _, _, _ => none
    else none) = some ⟨st, dl, root, ws, os⟩
  rw [if_pos ⟨rfl, rfl, rfl, rfl, rfl⟩, GameState.ofInt_toInt,
    decodeAttrList_encodeAttrList, decodeAttrList_encodeAttrList]

/-- Claim C10: serializing either game variant to its snapshot and
rebuilding a session from that snapshot reproduces the session exactly, so
any subsequent guess on the reloaded session returns the same result and
reaches the same state as on the original. -/
theorem snapshot_roundtrip (gw : WordleGame) (gs : SpellingGame) :
    decodeWordle (encodeWordle gw) = some gw ∧
    decodeSpelling (encodeSpelling gs) = some gs ∧
    (∀ allWords w,
      (decodeWordle (encodeWordle gw)).map (fun g2 => WordleGame.guess allWords g2 w)
        = some (WordleGame.guess allWords gw w)) ∧
    (∀ allWords w a,
      (decodeSpelling (encodeSpelling gs)).map
          (fun g2 => SpellingGame.guess allWords g2 w a)
        = some (SpellingGame.guess allWords gs w a)) := by
  refine ⟨decodeWordle_encodeWordle gw, decodeSpelling_encodeSpelling gs, ?_, ?_⟩
  · intro allWords w
    rw [decodeWordle_encodeWordle gw, Option.map_some']
  · intro allWords w a
    rw [decodeSpelling_encodeSpelling gs, Option.map_some']
